import Mathlib

/-!
A verification development for enstaller's install/remove orchestrator
(src/enstaller/enpkg.py) and its catalog/status engine
(src/enstaller/resource.py).

The Python code is shallowly embedded: the pure action-plan computation of
`enpkg.main` (lines 279-325), the generator `iter_dists_excl`, the
`Resources.get_status` classification, the dual-index fetch
`Resources._read_product_index`, the egg merge `Resources._add_egg_repos`
and the aggregation loop of `Resources.load_index` become Lean functions.
External collaborators that live outside the two source files
(`egginst.get_installed`, `indexed_repo.filename_dist`,
`utils.cname_eggname`, `indexed_repo.dist_naming.split_eggname`,
`utils.comparable_version`, `Chain.get_dist`, `Enstaller.get_installed_info`)
are passed in as function parameters, so every theorem quantifies over their
behaviour; concrete closures instantiate them in witnesses.

Python object mutation under exceptions is modelled by returning the state
reached at the point of the raise together with an optional error value.
Python 2 `None`-vs-tuple ordering (None sorts below everything) is modelled
explicitly by `pyGe`.
-/

set_option autoImplicit false

/-! ## Part 1: enpkg.py - the install orchestrator

`main` (enpkg.py lines 279-325) computes, from the resolver-supplied
dependency-ordered distribution list and the installed sets of `sys.prefix`
and of the target prefix, the exclude set and then drives the fetch, removal
and install phases.  `D` is the type of distribution identifiers;
`fnOf` models `indexed_repo.filename_dist`, `cn` models
`utils.cname_eggname`.  Installed sets are Python sets enumerated in some
order; they are modelled as lists, with membership as the set membership.
-/

/-- enpkg.py lines 136-145, `iter_dists_excl`: iterate over all dists,
excluding those whose filename is an element of `exclude_fn`; yield both
the distribution and the filename. -/
def iter_dists_excl {D : Type} (fnOf : D → String) :
    List D → List String → List (D × String)
  | [], _ => []
  | dist :: rest, exclude_fn =>
    let fn := fnOf dist
    if fn ∈ exclude_fn then iter_dists_excl fnOf rest exclude_fn
    else (dist, fn) :: iter_dists_excl fnOf rest exclude_fn

/-- enpkg.py lines 304-317, the body of the removal loop for one target
`dist`: if its filename is in the `sys.prefix` installed set, nothing is
removed; otherwise every installed filename in the target prefix whose
canonical name equals the target's canonical name is removed (the code has
no same-filename guard). -/
def removalsForTarget {D : Type} (fnOf : D → String) (cn : String → String)
    (sys_inst prefix_inst : List String) (dist : D) : List String :=
  let fn := fnOf dist
  if fn ∈ sys_inst then []
  else prefix_inst.filter (fun fn_inst => cn fn_inst = cn fn)

/-- enpkg.py lines 303-317: the removal phase iterates `dists[::-1]`
(reverse install order) and emits the removals of `removalsForTarget`. -/
def removalPhase {D : Type} (fnOf : D → String) (cn : String → String)
    (dists : List D) (sys_inst prefix_inst : List String) : List String :=
  (dists.reverse).flatMap (removalsForTarget fnOf cn sys_inst prefix_inst)

/-- The action plan computed by enpkg.py `main` lines 279-325: the exclude
set, the fetch actions (line 296), the order in which the removal phase
visits the targets (line 304), the emitted removal filenames, and the
install actions (line 320). -/
structure EnpkgPlan (D : Type) where
  exclude : List String
  fetch : List (D × String)
  removeTargets : List D
  removals : List String
  install : List (D × String)
  deriving DecidableEq

/-- enpkg.py `main`, lines 279-325, as a pure plan computation.
`all_inst = sys_inst | prefix_inst` (line 284); `exclude = set(all_inst)`,
then `if opts.force: exclude.discard(filename_dist(dists[-1]))`
`elif opts.forceall: exclude = set()` (lines 287-291).  `dists[-1]` on an
empty list raises IndexError, modelled as `none`.  The fetch and install
phases iterate `iter_dists_excl(dists, exclude)` (lines 296, 320); the
removal phase iterates `dists[::-1]` (line 304). -/
def mainPlan {D : Type} (fnOf : D → String) (cn : String → String)
    (dists : List D) (sys_inst prefix_inst : List String)
    (force forceall : Bool) : Option (EnpkgPlan D) :=
  let all_inst := sys_inst ++ prefix_inst
  let excl? : Option (List String) :=
    if force then
      match dists.getLast? with
      | some last => some (all_inst.filter (fun fn => fn ≠ fnOf last))
      | none => none
    else if forceall then some [] else some all_inst
  match excl? with
  | none => none
  | some exclude =>
    some { exclude := exclude
           fetch := iter_dists_excl fnOf dists exclude
           removeTargets := dists.reverse
           removals := removalPhase fnOf cn dists sys_inst prefix_inst
           install := iter_dists_excl fnOf dists exclude }

/-- A concrete stand-in for `utils.cname_eggname` used in concrete
instances: the name part of an egg filename, up to the first dash. -/
def cname0 (s : String) : String := ⟨s.data.takeWhile (fun c => c ≠ '-')⟩

/-- The distributions an `iter_dists_excl` pass acts on are exactly the
input distributions whose filename is not in the exclude set, in input
order. -/
theorem iter_dists_excl_map_fst {D : Type} (fnOf : D → String)
    (dists : List D) (ex : List String) :
    (iter_dists_excl fnOf dists ex).map Prod.fst =
      dists.filter (fun d => fnOf d ∉ ex) := by
  induction dists with
  | nil => rfl
  | cons d rest ih =>
    by_cases h : fnOf d ∈ ex <;>
      simp [iter_dists_excl, List.filter_cons, h, ih]

/-- C1 counterexample: with `force` and `forceall` both set, the code takes
the `force` branch (`elif` at line 290), so `exclude` is `allInstalled`
minus the last target's filename, which is nonempty here although the claim
demands that `forceAll` always makes `exclude` empty. -/
theorem c1_forceall_counterexample :
    (mainPlan (fun s => s) cname0 ["a-1.0-1.egg"] ["b-1.0-1.egg"] []
        true true).map EnpkgPlan.exclude = some ["b-1.0-1.egg"] ∧
      (["b-1.0-1.egg"] : List String) ≠ [] := by
  constructor
  · rfl
  · decide

/-- C1 (amended): with no flag, `exclude` is the union of the two installed
sets; with `force` set (regardless of `forceAll`), it is that union minus
the last target's filename; with `forceAll` set and `force` not set it is
empty; and the fetch and install phases act exactly on the targets whose
filename is not in `exclude`. -/
theorem mainPlan_exclude_spec {D : Type} (fnOf : D → String)
    (cn : String → String) (dists : List D)
    (sys_inst prefix_inst : List String) (force forceall : Bool)
    (last : D) (hlast : dists.getLast? = some last) :
    ∃ p, mainPlan fnOf cn dists sys_inst prefix_inst force forceall = some p ∧
      (force = false → forceall = false →
        ∀ fn, fn ∈ p.exclude ↔ fn ∈ sys_inst ∨ fn ∈ prefix_inst) ∧
      (force = true →
        ∀ fn, fn ∈ p.exclude ↔
          (fn ∈ sys_inst ∨ fn ∈ prefix_inst) ∧ fn ≠ fnOf last) ∧
      (force = false → forceall = true → p.exclude = []) ∧
      p.fetch.map Prod.fst = dists.filter (fun d => fnOf d ∉ p.exclude) ∧
      p.install.map Prod.fst = dists.filter (fun d => fnOf d ∉ p.exclude) := by
  cases force with
  | true =>
    simp only [mainPlan, if_true, hlast]
    refine ⟨_, rfl, ?_, ?_, ?_, ?_, ?_⟩ <;>
      simp [iter_dists_excl_map_fst, List.mem_filter, List.mem_append]
    intro fn
    tauto
  | false =>
    cases forceall with
    | true =>
      simp only [mainPlan, if_false, if_true, Bool.false_eq_true]
      refine ⟨_, rfl, ?_, ?_, ?_, ?_, ?_⟩ <;>
        simp [iter_dists_excl_map_fst]
    | false =>
      simp only [mainPlan, if_false, Bool.false_eq_true]
      refine ⟨_, rfl, ?_, ?_, ?_, ?_, ?_⟩ <;>
        simp [iter_dists_excl_map_fst, List.mem_append]

/-- C1 witness: the amended exclude/fetch/install characterization at a
concrete input. -/
theorem mainPlan_exclude_spec_witness :
    ∃ p, mainPlan (fun s => s) cname0 ["a-1.0-1.egg"] ["b-1.0-1.egg"] []
        false false = some p ∧
      ((false : Bool) = false → (false : Bool) = false →
        ∀ fn, fn ∈ p.exclude ↔ fn ∈ ["b-1.0-1.egg"] ∨ fn ∈ ([] : List String)) ∧
      ((false : Bool) = true →
        ∀ fn, fn ∈ p.exclude ↔
          (fn ∈ ["b-1.0-1.egg"] ∨ fn ∈ ([] : List String)) ∧ fn ≠ "a-1.0-1.egg") ∧
      ((false : Bool) = false → (false : Bool) = true → p.exclude = []) ∧
      p.fetch.map Prod.fst =
        ["a-1.0-1.egg"].filter (fun d => d ∉ p.exclude) ∧
      p.install.map Prod.fst =
        ["a-1.0-1.egg"].filter (fun d => d ∉ p.exclude) := by
  simpa using mainPlan_exclude_spec (fun s => s) cname0 ["a-1.0-1.egg"]
    ["b-1.0-1.egg"] [] false false "a-1.0-1.egg" (by rfl)

/-- C3 counterexample: the target `foo-2.0-1.egg` is not in the primary
installed set, so its removal loop runs and removes `foo-1.0-1.egg` from the
target prefix, even though `foo-1.0-1.egg` is also an element of the
primary-runtime installed set (the skip at enpkg.py line 306 tests only the
target's own filename, not the removed one). -/
theorem c3_removal_sysinst_counterexample :
    removalPhase (fun s => s) cname0 ["foo-2.0-1.egg"]
        ["foo-1.0-1.egg"] ["foo-1.0-1.egg"] = ["foo-1.0-1.egg"] ∧
      "foo-1.0-1.egg" ∈ ["foo-1.0-1.egg"] := by
  constructor
  · decide
  · decide

/-- C3 (amended): a filename is emitted by the removal phase iff it is in
the target-prefix installed set and some target distribution whose own
filename is not in the primary-runtime installed set shares its canonical
name; the skip guard applies to the target's filename, so an emitted
filename may itself also lie in the primary-runtime installed set. -/
theorem removalPhase_mem_spec {D : Type} (fnOf : D → String)
    (cn : String → String) (dists : List D)
    (sys_inst prefix_inst : List String) (g : String) :
    g ∈ removalPhase fnOf cn dists sys_inst prefix_inst ↔
      g ∈ prefix_inst ∧
        ∃ d ∈ dists, fnOf d ∉ sys_inst ∧ cn g = cn (fnOf d) := by
  simp only [removalPhase, List.mem_flatMap, List.mem_reverse]
  constructor
  · rintro ⟨d, hd, hg⟩
    by_cases h : fnOf d ∈ sys_inst
    · simp [removalsForTarget, h] at hg
    · simp only [removalsForTarget, if_neg h, List.mem_filter,
        decide_eq_true_eq] at hg
      exact ⟨hg.1, d, hd, h, hg.2⟩
  · rintro ⟨hgp, d, hd, hns, hcn⟩
    exact ⟨d, hd, by
      simp [removalsForTarget, hns, List.mem_filter, hgp, hcn]⟩

/-- C4 counterexample: target list `[foo-1.0-1.egg]`, empty primary
installed set, target prefix already holding `foo-1.0-1.egg`: the removal
phase removes the target's own filename (the code at enpkg.py lines 311-317
has no different-filename check), while the claim says only distributions
with a different filename than the target are removed. -/
theorem c4_same_filename_counterexample :
    removalPhase (fun s => s) cname0 ["foo-1.0-1.egg"] []
        ["foo-1.0-1.egg"] = ["foo-1.0-1.egg"] := by
  decide

/-- C4 (amended): for a target processed by the removal phase (its filename
not in the primary-runtime installed set), the removed filenames are
exactly the installed filenames of the target prefix sharing the target's
canonical name - including, possibly, the target's own filename. -/
theorem removalsForTarget_spec {D : Type} (fnOf : D → String)
    (cn : String → String) (sys_inst prefix_inst : List String) (dist : D)
    (h : fnOf dist ∉ sys_inst) :
    removalsForTarget fnOf cn sys_inst prefix_inst dist =
        prefix_inst.filter (fun g => cn g = cn (fnOf dist)) ∧
      ∀ g, g ∈ removalsForTarget fnOf cn sys_inst prefix_inst dist ↔
        g ∈ prefix_inst ∧ cn g = cn (fnOf dist) := by
  refine ⟨by simp [removalsForTarget, h], ?_⟩
  intro g
  simp [removalsForTarget, h, List.mem_filter]

/-- C4 witness: the amended characterization evaluated at a concrete
target and prefix contents. -/
theorem removalsForTarget_spec_witness :
    removalsForTarget (fun s => s) cname0 [] ["foo-1.0-1.egg", "bar-1.0-1.egg"]
        "foo-2.0-1.egg" =
        ["foo-1.0-1.egg", "bar-1.0-1.egg"].filter
          (fun g => cname0 g = cname0 "foo-2.0-1.egg") ∧
      ∀ g, g ∈ removalsForTarget (fun s => s) cname0 []
          ["foo-1.0-1.egg", "bar-1.0-1.egg"] "foo-2.0-1.egg" ↔
        g ∈ ["foo-1.0-1.egg", "bar-1.0-1.egg"] ∧ cname0 g = cname0 "foo-2.0-1.egg" :=
  removalsForTarget_spec (fun s => s) cname0 [] _ "foo-2.0-1.egg" (by decide)

/-- C5: whenever `main` computes a plan, the install (and fetch) phase
processes the non-excluded distributions in exactly the resolver-supplied
order, and the removal phase visits the target list in exactly the reverse
of that order. -/
theorem installOrder_removalOrder_spec {D : Type} (fnOf : D → String)
    (cn : String → String) (dists : List D)
    (sys_inst prefix_inst : List String) (force forceall : Bool)
    (p : EnpkgPlan D)
    (hp : mainPlan fnOf cn dists sys_inst prefix_inst force forceall = some p) :
    p.install.map Prod.fst = dists.filter (fun d => fnOf d ∉ p.exclude) ∧
      p.fetch.map Prod.fst = dists.filter (fun d => fnOf d ∉ p.exclude) ∧
      p.removeTargets = dists.reverse ∧
      p.removals =
        (dists.reverse).flatMap (removalsForTarget fnOf cn sys_inst prefix_inst) := by
  cases force with
  | true =>
    cases hl : dists.getLast? with
    | none =>
      simp [mainPlan, hl] at hp
    | some last =>
      simp only [mainPlan, hl, if_true] at hp
      injection hp with h2
      subst h2
      simp [iter_dists_excl_map_fst, removalPhase]
  | false =>
    cases forceall with
    | true =>
      simp only [mainPlan, if_false, if_true, Bool.false_eq_true] at hp
      injection hp with h2
      subst h2
      simp [iter_dists_excl_map_fst, removalPhase]
    | false =>
      simp only [mainPlan, if_false, Bool.false_eq_true] at hp
      injection hp with h2
      subst h2
      simp [iter_dists_excl_map_fst, removalPhase]

/-- C5 witness: the plan computed for a concrete two-element target list. -/
def planW : EnpkgPlan String :=
  { exclude := []
    fetch := [("a-1.0-1.egg", "a-1.0-1.egg"), ("b-1.0-1.egg", "b-1.0-1.egg")]
    removeTargets := ["b-1.0-1.egg", "a-1.0-1.egg"]
    removals := []
    install := [("a-1.0-1.egg", "a-1.0-1.egg"), ("b-1.0-1.egg", "b-1.0-1.egg")] }

/-- C5 witness: install order and removal order at a concrete plan. -/
theorem installOrder_removalOrder_spec_witness :
    planW.install.map Prod.fst =
        ["a-1.0-1.egg", "b-1.0-1.egg"].filter (fun d => d ∉ planW.exclude) ∧
      planW.fetch.map Prod.fst =
        ["a-1.0-1.egg", "b-1.0-1.egg"].filter (fun d => d ∉ planW.exclude) ∧
      planW.removeTargets = ["a-1.0-1.egg", "b-1.0-1.egg"].reverse ∧
      planW.removals =
        (["a-1.0-1.egg", "b-1.0-1.egg"].reverse).flatMap
          (removalsForTarget (fun s => s) cname0 [] []) :=
  installOrder_removalOrder_spec (fun s => s) cname0
    ["a-1.0-1.egg", "b-1.0-1.egg"] [] [] false false planW (by decide)

/-! ## Part 2: resource.py - catalog loading

`Resources.load_index` (lines 76-99) fetches the root products index, adds
each product via `add_product` (lines 154-173), collecting
`EnstallerResourceIndexError`s, and raises one aggregated error at the end.
`_read_product_index` (lines 101-152) is the dual per-product index lookup.
`_add_egg_repos` (lines 175-193) merges a product's egg table into the
chain.  External pieces: `json` parsing (`parse`), the platform string
(`plat`), `dist_naming.split_eggname` (`splitEgg`), and the canonical-name
derivation performed by `add_Reqs_to_spec` (`canonical`).  Python
exceptions are modelled by returning the state reached at the raise point
together with an optional `PyErr`; the distinct Python exception classes
(`EnstallerResourceIndexError`, `AssertionError`, the generic platform
`Exception`, `IndexError` on a bad repo number) are distinct constructors,
because `load_index` catches only the first. -/

/-- An HTTP response as consumed by `_read_product_index`: status code and
body. -/
structure HttpResp where
  status : Nat
  body : String
  deriving DecidableEq

/-- The Python exception classes that can escape the modelled code. -/
inductive PyErr where
  /-- `EnstallerResourceIndexError` (resource.py line 26) -/
  | indexError (msg : String)
  /-- `AssertionError` (the `assert` at resource.py line 190, and
  `split_eggname` failures) -/
  | assertionError (msg : String)
  /-- the generic `Exception` raised on a platform mismatch (line 167) -/
  | platformError (msg : String)
  /-- `IndexError` from `repos[data.get('repo', 0)]` (line 191) -/
  | keyError (msg : String)
  deriving DecidableEq

/-- One file entry of a product sub-index (spec section 6): optional
`python`, `depends` (default empty handled at parse time), `repo` number
(default 0 handled at parse time). -/
structure EggData where
  python : Option String
  depends : List String
  repo : Nat
  deriving DecidableEq

/-- A parsed per-product sub-index: optional `platform`, optional
`egg_repos`, optional `eggs` table (cname to files mapping). -/
structure SubIndex where
  platform : Option String
  egg_repos : Option (List String)
  eggs : Option (List (String × List (String × EggData)))
  deriving DecidableEq

/-- The spec dict synthesized at resource.py lines 185-189, with the
`cname` added by `add_Reqs_to_spec`. -/
structure Sp where
  metadata_version : String
  name : String
  version : String
  build : Nat
  python : String
  packages : List String
  cname : String
  deriving DecidableEq

/-- The chain state mutated by `_add_egg_repos`: repository list, the
dist-to-spec index, and the cname-to-dists groups. -/
structure ChainState where
  repos : List String
  index : List (String × Sp)
  groups : List (String × List String)
  deriving DecidableEq

/-- A product dict as appended to `self.index` at resource.py line 173. -/
structure ProductEntry where
  url : String
  index_url : String
  sub : SubIndex
  deriving DecidableEq

/-- The `Resources` state touched by `load_index`: the chain and the
product list. -/
structure ResourcesState where
  chain : ChainState
  index : List ProductEntry
  deriving DecidableEq

/-- The per-product input: the product url (resource.py line 87) and the
two HTTP responses of the dual index lookup. -/
structure ProductData where
  url : String
  resp1 : HttpResp
  resp2 : HttpResp
  deriving DecidableEq

/-- Python dict assignment `d[k] = v` on an association list. -/
def setAssoc {b : Type} : List (String × b) → String → b → List (String × b)
  | [], k, v => [(k, v)]
  | (k1, v1) :: rest, k, v =>
    if k1 = k then (k1, v) :: rest else (k1, v1) :: setAssoc rest k v

/-- Python dict lookup `d.get(k)` on an association list. -/
def lookupAssoc {b : Type} : List (String × b) → String → Option b
  | [], _ => none
  | (k1, v1) :: rest, k => if k1 = k then some v1 else lookupAssoc rest k

/-- `defaultdict(list)` append `d[k].append(v)` (resource.py line 193). -/
def addGroup : List (String × List String) → String → String → List (String × List String)
  | [], k, v => [(k, [v])]
  | (k1, l) :: rest, k, v =>
    if k1 = k then (k1, l ++ [v]) :: rest else (k1, l) :: addGroup rest k v

/-- resource.py lines 101-152, `_read_product_index`: try the
platform-independent response first; if its status is 200 parse and return
its body, otherwise try the platform-specific response; if neither has
status 200 (or a consulted body fails to parse, the `except ValueError`)
raise `EnstallerResourceIndexError(specific.path)`. -/
def read_product_index (parse : String → Option SubIndex)
    (independentPath specificPath : String) (res1 res2 : HttpResp) :
    Except PyErr (String × SubIndex) :=
  if res1.status = 200 then
    match parse res1.body with
    | some j => .ok (independentPath, j)
    | none => .error (.indexError specificPath)
  else if res2.status = 200 then
    match parse res2.body with
    | some j => .ok (specificPath, j)
    | none => .error (.indexError specificPath)
  else .error (.indexError specificPath)

/-- resource.py lines 183-193, the body of the inner egg loop for one
`(distname, data)` pair: split the filename, synthesize the spec (with
`cname` derived from the parsed name by `add_Reqs_to_spec`), `assert
spec['cname'] == cname` (AssertionError on mismatch), and extend the index
and the cname group. -/
def addOneEgg (canonical : String → String)
    (splitEgg : String → Option (String × String × Nat))
    (repos : List String) (cname : String) (st : ChainState)
    (file : String × EggData) : ChainState × Option PyErr :=
  match splitEgg file.1 with
  | none => (st, some (.assertionError file.1))
  | some (name, version, build) =>
    let spec : Sp := { metadata_version := "1.1", name := name,
                       version := version, build := build,
                       python := (file.2.python).getD "2.7",
                       packages := file.2.depends,
                       cname := canonical name }
    if spec.cname = cname then
      match repos.get? file.2.repo with
      | some r =>
        ({ st with index := setAssoc st.index (r ++ file.1) spec,
                   groups := addGroup st.groups cname (r ++ file.1) }, none)
      | none => (st, some (.keyError file.1))
    else (st, some (.assertionError file.1))

/-- The `for distname, data in project['files'].iteritems()` loop
(resource.py line 183); an exception stops the loop, keeping the state
reached so far. -/
def addFiles (canonical : String → String)
    (splitEgg : String → Option (String × String × Nat))
    (repos : List String) (cname : String) :
    ChainState → List (String × EggData) → ChainState × Option PyErr
  | st, [] => (st, none)
  | st, f :: fs =>
    match addOneEgg canonical splitEgg repos cname st f with
    | (st1, none) => addFiles canonical splitEgg repos cname st1 fs
    | (st1, some e) => (st1, some e)

/-- The `for cname, project in index['eggs'].iteritems()` loop
(resource.py line 182). -/
def addEggsEntries (canonical : String → String)
    (splitEgg : String → Option (String × String × Nat))
    (repos : List String) :
    ChainState → List (String × List (String × EggData)) → ChainState × Option PyErr
  | st, [] => (st, none)
  | st, (cname, files) :: rest =>
    match addFiles canonical splitEgg repos cname st files with
    | (st1, none) => addEggsEntries canonical splitEgg repos st1 rest
    | (st1, some e) => (st1, some e)

/-- resource.py lines 175-193, `_add_egg_repos`: compute the repo list
(default `[url]`), extend the chain's repos, then merge the egg table. -/
def add_egg_repos (canonical : String → String)
    (splitEgg : String → Option (String × String × Nat))
    (url : String) (sub : SubIndex)
    (eggs : List (String × List (String × EggData))) (st : ChainState) :
    ChainState × Option PyErr :=
  let repos := match sub.egg_repos with
    | some paths => paths.map (fun p => url ++ "/" ++ p ++ "/")
    | none => [url]
  addEggsEntries canonical splitEgg repos { st with repos := st.repos ++ repos } eggs

/-- resource.py lines 154-173, `add_product`: read the product index
(possible `EnstallerResourceIndexError`), check the declared platform
(generic `Exception`, fatal), merge eggs if present (possible
`AssertionError`), and append the product to `self.index`. -/
def add_product (plat : String) (canonical : String → String)
    (splitEgg : String → Option (String × String × Nat))
    (parse : String → Option SubIndex) (p : ProductData)
    (st : ResourcesState) : ResourcesState × Option PyErr :=
  match read_product_index parse (p.url ++ "/index.json")
      (p.url ++ "/index-" ++ plat ++ ".json") p.resp1 p.resp2 with
  | .error e => (st, some e)
  | .ok (index_url, sub) =>
    let withEggs : ResourcesState × Option PyErr :=
      match sub.eggs with
      | some eggs =>
        match add_egg_repos canonical splitEgg p.url sub eggs st.chain with
        | (ch, none) =>
          ({ chain := ch, index := st.index ++ [⟨p.url, index_url, sub⟩] }, none)
        | (ch, some e) => ({ st with chain := ch }, some e)
      | none => ({ st with index := st.index ++ [⟨p.url, index_url, sub⟩] }, none)
    match sub.platform with
    | some q => if q ≠ plat then (st, some (.platformError q)) else withEggs
    | none => withEggs

/-- resource.py lines 86-93, the product loop of `load_index`: call
`add_product` on each product, catching only
`EnstallerResourceIndexError` (whose message is appended to
`failed_index_urls`); any other exception aborts the loop. -/
def loadProducts (plat : String) (canonical : String → String)
    (splitEgg : String → Option (String × String × Nat))
    (parse : String → Option SubIndex) :
    ResourcesState → List String → List ProductData →
      ResourcesState × List String × Option PyErr
  | st, failed, [] => (st, failed, none)
  | st, failed, p :: rest =>
    match add_product plat canonical splitEgg parse p st with
    | (st1, none) => loadProducts plat canonical splitEgg parse st1 failed rest
    | (st1, some (.indexError u)) =>
      loadProducts plat canonical splitEgg parse st1 (failed ++ [u]) rest
    | (st1, some e) => (st1, failed, some e)

/-- resource.py lines 76-99, `load_index`: if fetching the root products
index raises `HTTPError` (`rootFetch = .error ()`), log and return
normally; otherwise run the product loop and, if any product failed with an
index error, raise one aggregated `EnstallerResourceIndexError` listing
every failing URL. -/
def load_index (plat : String) (canonical : String → String)
    (splitEgg : String → Option (String × String × Nat))
    (parse : String → Option SubIndex)
    (rootFetch : Except Unit (List ProductData)) (st : ResourcesState) :
    ResourcesState × Option PyErr :=
  match rootFetch with
  | .error _ => (st, none)
  | .ok products =>
    match loadProducts plat canonical splitEgg parse st [] products with
    | (st1, failed, none) =>
      if failed.isEmpty then (st1, none)
      else (st1, some (.indexError
        ("Unable to read resource indices:\n" ++ String.intercalate "\n" failed)))
    | (st1, _, some e) => (st1, some e)

/-- C6: in the dual per-product index lookup, a 200 response on the
platform-independent URL makes its parsed body the result and the
platform-specific response is never consulted (the result is invariant in
it); otherwise a 200 platform-specific response makes its parsed body the
result; if neither response is 200 the lookup fails with an index error
naming the (platform-specific) failing URL. -/
theorem read_product_index_spec (parse : String → Option SubIndex)
    (iPath sPath : String) (res1 res2 : HttpResp) (j : SubIndex) :
    (res1.status = 200 → parse res1.body = some j →
      read_product_index parse iPath sPath res1 res2 = .ok (iPath, j)) ∧
    (res1.status = 200 → ∀ res2a res2b,
      read_product_index parse iPath sPath res1 res2a =
        read_product_index parse iPath sPath res1 res2b) ∧
    (res1.status ≠ 200 → res2.status = 200 → parse res2.body = some j →
      read_product_index parse iPath sPath res1 res2 = .ok (sPath, j)) ∧
    (res1.status ≠ 200 → res2.status ≠ 200 →
      read_product_index parse iPath sPath res1 res2 =
        .error (.indexError sPath)) := by
  refine ⟨?_, ?_, ?_, ?_⟩
  · intro h1 h2
    simp [read_product_index, h1, h2]
  · intro h1 res2a res2b
    simp [read_product_index, h1]
  · intro h1 h2 h3
    simp [read_product_index, h1, h2, h3]
  · intro h1 h2
    simp [read_product_index, h1, h2]

/-- A concrete JSON parser stand-in used by witnesses. -/
def parseW : String → Option SubIndex :=
  fun s => if s = "body" then some ⟨none, none, none⟩ else none

/-- C6 witness: the dual lookup evaluated on concrete responses. -/
theorem read_product_index_spec_witness :
    (HttpResp.status ⟨200, "body"⟩ = 200 →
      parseW (HttpResp.body ⟨200, "body"⟩) = some ⟨none, none, none⟩ →
      read_product_index parseW "i" "s" ⟨200, "body"⟩ ⟨404, ""⟩ =
        .ok ("i", ⟨none, none, none⟩)) ∧
    (HttpResp.status ⟨200, "body"⟩ = 200 → ∀ res2a res2b,
      read_product_index parseW "i" "s" ⟨200, "body"⟩ res2a =
        read_product_index parseW "i" "s" ⟨200, "body"⟩ res2b) ∧
    (HttpResp.status ⟨200, "body"⟩ ≠ 200 →
      HttpResp.status ⟨404, ""⟩ = 200 →
      parseW (HttpResp.body ⟨404, ""⟩) = some ⟨none, none, none⟩ →
      read_product_index parseW "i" "s" ⟨200, "body"⟩ ⟨404, ""⟩ =
        .ok ("s", ⟨none, none, none⟩)) ∧
    (HttpResp.status ⟨200, "body"⟩ ≠ 200 → HttpResp.status ⟨404, ""⟩ ≠ 200 →
      read_product_index parseW "i" "s" ⟨200, "body"⟩ ⟨404, ""⟩ =
        .error (.indexError "s")) :=
  read_product_index_spec parseW "i" "s" ⟨200, "body"⟩ ⟨404, ""⟩ ⟨none, none, none⟩

/-- C10: when fetching the root products index fails with an HTTP error,
`load_index` returns normally with the state unchanged, which is the very
result it produces for an empty products index - the caller cannot tell
the two apart. -/
theorem load_index_root_http_error_spec (plat : String)
    (canonical : String → String)
    (splitEgg : String → Option (String × String × Nat))
    (parse : String → Option SubIndex) (st : ResourcesState) :
    load_index plat canonical splitEgg parse (.error ()) st = (st, none) ∧
      load_index plat canonical splitEgg parse (.ok []) st = (st, none) :=
  ⟨rfl, rfl⟩

/-- The product loop of `load_index`, characterized: given a classifier `f`
deciding for each product whether `add_product` succeeds (`none`) or raises
an `EnstallerResourceIndexError` with message `u` (`some u`) leaving the
state unchanged, the loop applies `add_product` for exactly the successful
products and appends every failure message, in order. -/
theorem loadProducts_spec (plat : String) (canonical : String → String)
    (splitEgg : String → Option (String × String × Nat))
    (parse : String → Option SubIndex) (f : ProductData → Option String)
    (products : List ProductData)
    (hf : ∀ p ∈ products,
      (f p = none →
        ∀ s, (add_product plat canonical splitEgg parse p s).2 = none) ∧
      (∀ u, f p = some u →
        ∀ s, add_product plat canonical splitEgg parse p s =
          (s, some (.indexError u)))) :
    ∀ st failed, loadProducts plat canonical splitEgg parse st failed products =
      (products.foldl (fun s p =>
          if (f p).isNone then (add_product plat canonical splitEgg parse p s).1
          else s) st,
        failed ++ products.filterMap f, none) := by
  induction products with
  | nil =>
    intro st failed
    simp [loadProducts]
  | cons p rest ih =>
    intro st failed
    obtain ⟨h1, h2⟩ := hf p (List.mem_cons_self p rest)
    have hrest : ∀ q ∈ rest,
        (f q = none →
          ∀ s, (add_product plat canonical splitEgg parse q s).2 = none) ∧
        (∀ u, f q = some u →
          ∀ s, add_product plat canonical splitEgg parse q s =
            (s, some (.indexError u))) :=
      fun q hq => hf q (List.mem_cons_of_mem p hq)
    cases hfp : f p with
    | none =>
      have hsnd := h1 hfp st
      have heq : add_product plat canonical splitEgg parse p st =
          ((add_product plat canonical splitEgg parse p st).1, none) := by
        rw [← hsnd]
      rw [loadProducts, heq]
      show loadProducts plat canonical splitEgg parse
          (add_product plat canonical splitEgg parse p st).1 failed rest = _
      rw [ih hrest]
      simp [hfp, List.filterMap_cons]
    | some u =>
      have heq := h2 u hfp st
      rw [loadProducts, heq]
      show loadProducts plat canonical splitEgg parse st (failed ++ [u]) rest = _
      rw [ih hrest]
      simp [hfp, List.filterMap_cons]

/-- C8: over a root index whose products each either load successfully or
fail with an index error, `load_index` attempts every product, keeps the
effects of exactly the successful ones, and raises a single aggregated
index error listing every failing URL if and only if at least one product
failed. -/
theorem load_index_aggregate_spec (plat : String) (canonical : String → String)
    (splitEgg : String → Option (String × String × Nat))
    (parse : String → Option SubIndex) (f : ProductData → Option String)
    (products : List ProductData) (st : ResourcesState)
    (hf : ∀ p ∈ products,
      (f p = none →
        ∀ s, (add_product plat canonical splitEgg parse p s).2 = none) ∧
      (∀ u, f p = some u →
        ∀ s, add_product plat canonical splitEgg parse p s =
          (s, some (.indexError u)))) :
    load_index plat canonical splitEgg parse (.ok products) st =
      (products.foldl (fun s p =>
          if (f p).isNone then (add_product plat canonical splitEgg parse p s).1
          else s) st,
        if (products.filterMap f).isEmpty then none
        else some (.indexError ("Unable to read resource indices:\n" ++
          String.intercalate "\n" (products.filterMap f)))) := by
  have h := loadProducts_spec plat canonical splitEgg parse f products hf st []
  rw [load_index, h]
  simp only [List.nil_append]
  by_cases he : (products.filterMap f).isEmpty <;> simp [he]

/-- Concrete products and parser used by the load_index witnesses:
`prodG` loads successfully, `prodB` fails both index lookups. -/
def prodG : ProductData := ⟨"u1", ⟨200, "body"⟩, ⟨404, ""⟩⟩

/-- A product whose two index requests both return 404. -/
def prodB : ProductData := ⟨"u2", ⟨404, ""⟩, ⟨404, ""⟩⟩

/-- The failure classifier for `prodG`/`prodB` under platform `plat`. -/
def fW : ProductData → Option String :=
  fun p => if p.url = "u2" then some "u2/index-plat.json" else none

/-- C8 witness: one good product and one failing product, aggregated. -/
theorem load_index_aggregate_spec_witness :
    load_index "plat" (fun s => s) (fun _ => none) parseW
        (.ok [prodG, prodB]) ⟨⟨[], [], []⟩, []⟩ =
      ([prodG, prodB].foldl (fun s p =>
          if (fW p).isNone then
            (add_product "plat" (fun s2 => s2) (fun _ => none) parseW p s).1
          else s) ⟨⟨[], [], []⟩, []⟩,
        if ([prodG, prodB].filterMap fW).isEmpty then none
        else some (.indexError ("Unable to read resource indices:\n" ++
          String.intercalate "\n" ([prodG, prodB].filterMap fW)))) :=
  load_index_aggregate_spec "plat" (fun s => s) (fun _ => none) parseW fW
    [prodG, prodB] ⟨⟨[], [], []⟩, []⟩ (by
      intro p hp
      simp only [List.mem_cons, List.not_mem_nil, or_false] at hp
      rcases hp with rfl | rfl
      · constructor
        · intro _ s
          rfl
        · intro u hu
          have hg : fW prodG = none := by decide
          rw [hg] at hu
          exact Option.noConfusion hu
      · constructor
        · intro hn
          have hb : fW prodB = some "u2/index-plat.json" := by decide
          rw [hb] at hn
          exact Option.noConfusion hn
        · intro u hu s
          have hb : fW prodB = some "u2/index-plat.json" := by decide
          rw [hb] at hu
          injection hu with h2
          rw [← h2]
          rfl)

/-- C9 (amended): a product whose egg table holds a distribution whose
derived canonical name disagrees with its table key makes the `assert` at
resource.py line 190 raise an `AssertionError`; `load_index` catches only
`EnstallerResourceIndexError`, so the assertion aborts the whole index load
immediately: the error is not the aggregated index error, the product list
is not extended, and the result does not depend on the remaining
products. -/
theorem load_index_assert_aborts (plat : String) (canonical : String → String)
    (splitEgg : String → Option (String × String × Nat))
    (parse : String → Option SubIndex) (p : ProductData)
    (rest : List ProductData) (st : ResourcesState) (sub : SubIndex)
    (cname distname : String) (data : EggData)
    (fs : List (String × EggData))
    (es : List (String × List (String × EggData)))
    (n v : String) (b : Nat)
    (h1 : p.resp1.status = 200) (h2 : parse p.resp1.body = some sub)
    (h3 : sub.platform = none)
    (h4 : sub.eggs = some ((cname, (distname, data) :: fs) :: es))
    (h5 : splitEgg distname = some (n, v, b))
    (h6 : canonical n ≠ cname) :
    (load_index plat canonical splitEgg parse (.ok (p :: rest)) st).2 =
        some (.assertionError distname) ∧
      (load_index plat canonical splitEgg parse (.ok (p :: rest)) st).1.index =
        st.index ∧
      ∀ rest2, load_index plat canonical splitEgg parse (.ok (p :: rest)) st =
        load_index plat canonical splitEgg parse (.ok (p :: rest2)) st := by
  have hr : read_product_index parse (p.url ++ "/index.json")
      (p.url ++ "/index-" ++ plat ++ ".json") p.resp1 p.resp2 =
      .ok (p.url ++ "/index.json", sub) := by
    simp [read_product_index, h1, h2]
  have hadd : add_product plat canonical splitEgg parse p st =
      ({ st with chain :=
          { st.chain with repos := st.chain.repos ++
              (match sub.egg_repos with
               | some paths => paths.map (fun q => p.url ++ "/" ++ q ++ "/")
               | none => [p.url]) } },
        some (.assertionError distname)) := by
    simp only [add_product, hr, h3, h4, add_egg_repos, addEggsEntries,
      addFiles, addOneEgg, h5, h6, if_false]
  have hload : ∀ rest3, load_index plat canonical splitEgg parse
      (.ok (p :: rest3)) st =
      ({ st with chain :=
          { st.chain with repos := st.chain.repos ++
              (match sub.egg_repos with
               | some paths => paths.map (fun q => p.url ++ "/" ++ q ++ "/")
               | none => [p.url]) } },
        some (.assertionError distname)) := by
    intro rest3
    simp only [load_index, loadProducts, hadd]
  refine ⟨?_, ?_, ?_⟩
  · rw [hload rest]
  · rw [hload rest]
  · intro rest2
    rw [hload rest, hload rest2]

/-- A sub-index whose egg table key `bar` disagrees with the canonical
name derived from the egg filename. -/
def subBad : SubIndex := ⟨none, none, some [("bar", [("foo-1.0-1.egg", ⟨none, [], 0⟩)])]⟩

/-- A concrete parser returning `subBad` for body `bad` and an empty
sub-index for body `body`. -/
def parseW2 : String → Option SubIndex :=
  fun s => if s = "bad" then some subBad
    else if s = "body" then some ⟨none, none, none⟩ else none

/-- A concrete `split_eggname` stand-in for the witnesses. -/
def splitW : String → Option (String × String × Nat) :=
  fun s => if s = "foo-1.0-1.egg" then some ("foo", "1.0", 1) else none

/-- A product whose sub-index is `subBad`. -/
def prodBad : ProductData := ⟨"u0", ⟨200, "bad"⟩, ⟨404, ""⟩⟩

/-- C9 counterexample: with a cname-mismatched first product followed by a
healthy product, `load_index` ends with an `AssertionError` (not the
aggregated `EnstallerResourceIndexError` the claim requires) and the
healthy product is never added - loading does not continue. -/
theorem c9_assert_counterexample :
    (load_index "plat" (fun s => s) splitW parseW2 (.ok [prodBad, prodG])
        ⟨⟨[], [], []⟩, []⟩).2 = some (.assertionError "foo-1.0-1.egg") ∧
      (load_index "plat" (fun s => s) splitW parseW2 (.ok [prodBad, prodG])
        ⟨⟨[], [], []⟩, []⟩).1.index = [] := by
  constructor <;> decide

/-- C9 witness: the abort theorem applied to the concrete mismatched
product. -/
theorem load_index_assert_aborts_witness :
    (load_index "plat" (fun s => s) splitW parseW2 (.ok (prodBad :: [prodG]))
        ⟨⟨[], [], []⟩, []⟩).2 = some (.assertionError "foo-1.0-1.egg") ∧
      (load_index "plat" (fun s => s) splitW parseW2 (.ok (prodBad :: [prodG]))
        ⟨⟨[], [], []⟩, []⟩).1.index =
        ResourcesState.index ⟨⟨[], [], []⟩, []⟩ ∧
      ∀ rest2, load_index "plat" (fun s => s) splitW parseW2
          (.ok (prodBad :: [prodG])) ⟨⟨[], [], []⟩, []⟩ =
        load_index "plat" (fun s => s) splitW parseW2
          (.ok (prodBad :: rest2)) ⟨⟨[], [], []⟩, []⟩ :=
  load_index_assert_aborts "plat" (fun s => s) splitW parseW2 prodBad [prodG]
    ⟨⟨[], [], []⟩, []⟩ subBad "bar" "foo-1.0-1.egg" ⟨none, [], 0⟩ [] []
    "foo" "1.0" 1 rfl rfl rfl rfl rfl (by decide)

/-! ## Part 3: resource.py - get_status

`Resources.get_status` (lines 200-247).  Its structure, kept faithfully:
the loop over the available groups (lines 212-223) is nested INSIDE the
loop over the installed cnames (line 204), so it runs once per installed
cname with a non-None info, and not at all when nothing is installed.
The records are `defaultdict(str)` dicts: absent keys read as `""`.
The comparison at line 237 is Python 2 `>=` on the results of `vb_egg`,
where a parse failure yields `None` and `None` sorts below every tuple
(`None >= None` is true).  External collaborators are fields of
`StatusEnv`: `installed_info c` models
`self.enst.get_installed_info(c)[0][1]` (line 206), `get_dist` models
`self.enst.chain.get_dist(Req(cname))` (line 213), `split_dist` and
`split_eggname` model `dist_naming` (lines 216-217), and
`comparable_version` models `utils.comparable_version` returning a value
in a linearly ordered type `K` (or failing with
`IrrationalVersionError`). -/

/-- The metadata dict returned by `get_installed_info` for an installed
cname, restricted to the keys `get_status` reads. -/
structure InstalledInfo where
  name : String
  egg_name : String
  deriving DecidableEq

/-- One `defaultdict(str)` status record: absent keys read as `""`.
`aEgg`/`aVer` are the dict keys `a-egg`/`a-ver`. -/
structure StatusRec where
  name : String := ""
  egg_name : String := ""
  aEgg : String := ""
  aVer : String := ""
  status : String := ""
  deriving DecidableEq

/-- The external collaborators consumed by `get_status`. -/
structure StatusEnv (K : Type) where
  installed_cnames : List String
  installed_info : String → Option InstalledInfo
  group_cnames : List String
  get_dist : String → Option String
  split_dist : String → String × String
  split_eggname : String → Option (String × String × Nat)
  comparable_version : String → Option K

/-- Python 2 tuple `>=` on `(version, build)` keys (lexicographic). -/
def pyTupleGe {K : Type} [LinearOrder K] (x y : K × Nat) : Bool :=
  decide (y.1 < x.1) || (decide (y.1 = x.1) && decide (y.2 ≤ x.2))

/-- Python 2 `>=` including `None`: `None` sorts below every tuple and
equals itself. -/
def pyGe {K : Type} [LinearOrder K] :
    Option (K × Nat) → Option (K × Nat) → Bool
  | none, none => true
  | some _, none => true
  | none, some _ => false
  | some x, some y => pyTupleGe x y

/-- resource.py lines 225-232, `vb_egg`: split the egg filename and build
the comparison key `(comparable_version(v), b)`; both
`IrrationalVersionError` and `AssertionError` yield `None`. -/
def vbEgg {K : Type} (env : StatusEnv K) (fn : String) : Option (K × Nat) :=
  match env.split_eggname fn with
  | none => none
  | some (_, v, b) =>
    match env.comparable_version v with
    | none => none
    | some cv => some (cv, b)

/-- resource.py lines 234-245, the status-assignment pass over one
record. -/
def classify {K : Type} [LinearOrder K] (env : StatusEnv K) (r : StatusRec) :
    StatusRec :=
  if r.egg_name ≠ "" then
    if r.aEgg ≠ "" then
      if pyGe (vbEgg env r.egg_name) (vbEgg env r.aEgg) then
        { r with status := "up-to-date" }
      else { r with status := "updateable" }
    else { r with status := "installed" }
  else if r.aEgg ≠ "" then { r with status := "installable" } else r

/-- resource.py lines 212-223, the body of the (nested) available loop for
one group cname: skip when `get_dist` is None; the unguarded
`split_eggname` at line 217 propagates a parse failure (modelled as
`none`); otherwise create the record if missing (with `name` defaulted to
the cname) and set `a-egg` and `a-ver`. -/
def innerStep {K : Type} (env : StatusEnv K)
    (res : List (String × StatusRec)) (gc : String) :
    Option (List (String × StatusRec)) :=
  match env.get_dist gc with
  | none => some res
  | some dist =>
    let fn := (env.split_dist dist).2
    match env.split_eggname fn with
    | none => none
    | some (_, v, b) =>
      let base := (lookupAssoc res gc).getD { name := gc }
      some (setAssoc res gc
        { base with aEgg := fn, aVer := v ++ "-" ++ toString b })

/-- resource.py lines 204-223, the body of the installed loop for one
installed cname: skip entirely when the info is None (line 207-208);
otherwise store the info record and run the whole available loop. -/
def outerStep {K : Type} (env : StatusEnv K)
    (res : List (String × StatusRec)) (cname : String) :
    Option (List (String × StatusRec)) :=
  match env.installed_info cname with
  | none => some res
  | some info =>
    List.foldlM (innerStep env)
      (setAssoc res cname { name := info.name, egg_name := info.egg_name })
      env.group_cnames

/-- resource.py lines 203-223: the record-building part of `get_status`. -/
def getStatusRaw {K : Type} (env : StatusEnv K) :
    Option (List (String × StatusRec)) :=
  List.foldlM (outerStep env) [] env.installed_cnames

/-- resource.py lines 200-247, `get_status`: build the records, then run
the status-assignment pass over every record. -/
def getStatus {K : Type} [LinearOrder K] (env : StatusEnv K) :
    Option (List (String × StatusRec)) :=
  (getStatusRaw env).map (List.map (fun p => (p.1, classify env p.2)))

/-- The installed info of `c` as `get_status` sees it: present only when
`c` is among the installed cnames. -/
def instInfoOf {K : Type} (env : StatusEnv K) (c : String) :
    Option InstalledInfo :=
  if c ∈ env.installed_cnames then env.installed_info c else none

/-- The best available distribution of `c` as `get_status` sees it:
present only when `c` is an available group key and `get_dist` finds a
candidate. -/
def availDistOf {K : Type} (env : StatusEnv K) (c : String) : Option String :=
  if c ∈ env.group_cnames then env.get_dist c else none

/-- The status string recorded for `c`, if a record exists. -/
def statusIn (res : List (String × StatusRec)) (c : String) : Option String :=
  (lookupAssoc res c).map StatusRec.status

/-- The `(filename, version, build)` data the available loop writes for
`c` when iterating the group keys `gcs`. -/
def availEntry {K : Type} (env : StatusEnv K) (gcs : List String)
    (c : String) : Option (String × String × Nat) :=
  if c ∈ gcs then
    match env.get_dist c with
    | none => none
    | some dist =>
      match env.split_eggname (env.split_dist dist).2 with
      | none => none
      | some (_, v, b) => some ((env.split_dist dist).2, v, b)
  else none

/-- Setting the `a-egg`/`a-ver` fields on a record (what one pass of the
available loop does when it finds an entry). -/
def overlayAvail (r : StatusRec) (e : String × String × Nat) : StatusRec :=
  { r with aEgg := e.1, aVer := e.2.1 ++ "-" ++ toString e.2.2 }

/-- The record stored for an installed cname at line 210 (`defaultdict`
updated with the info). -/
def instRecOf (i : InstalledInfo) : StatusRec :=
  { name := i.name, egg_name := i.egg_name }

/-- A record with the available data of `c` overlaid, when `c` has one. -/
def withAvail {K : Type} (env : StatusEnv K) (r : StatusRec) (c : String) :
    StatusRec :=
  match availEntry env env.group_cnames c with
  | some e => overlayAvail r e
  | none => r

/-- What one full run of the available loop does to the record lookup at
`c`. -/
def availOver {K : Type} (env : StatusEnv K) (o : Option StatusRec)
    (c : String) : Option StatusRec :=
  match availEntry env env.group_cnames c with
  | some e => some (overlayAvail (o.getD { name := c }) e)
  | none => o

theorem lookupAssoc_setAssoc {b : Type} (res : List (String × b))
    (k c : String) (v : b) :
    lookupAssoc (setAssoc res k v) c =
      if k = c then some v else lookupAssoc res c := by
  induction res with
  | nil =>
    simp [setAssoc, lookupAssoc]
  | cons hd tl ih =>
    obtain ⟨k1, v1⟩ := hd
    by_cases h1 : k1 = k
    · subst h1
      by_cases h2 : k1 = c <;> simp [setAssoc, lookupAssoc, h2]
    · by_cases h2 : k1 = c
      · subst h2
        have h3 : ¬ k = k1 := fun h => h1 h.symm
        simp [setAssoc, lookupAssoc, h1, h3]
      · simp [setAssoc, lookupAssoc, h1, h2, ih]

theorem lookupAssoc_map_classify {K : Type} [LinearOrder K]
    (env : StatusEnv K) (res : List (String × StatusRec)) (c : String) :
    lookupAssoc (res.map (fun p => (p.1, classify env p.2))) c =
      (lookupAssoc res c).map (classify env) := by
  induction res with
  | nil => rfl
  | cons hd tl ih =>
    obtain ⟨k1, v1⟩ := hd
    by_cases h : k1 = c <;> simp [lookupAssoc, h, ih]

theorem overlayAvail_overlayAvail (r : StatusRec) (e : String × String × Nat) :
    overlayAvail (overlayAvail r e) e = overlayAvail r e := rfl

theorem availOver_idem {K : Type} (env : StatusEnv K) (o : Option StatusRec)
    (c : String) :
    availOver env (availOver env o c) c = availOver env o c := by
  cases h : availEntry env env.group_cnames c <;>
    simp [availOver, h, overlayAvail]

theorem availOver_withAvail {K : Type} (env : StatusEnv K) (r : StatusRec)
    (c : String) :
    availOver env (some (withAvail env r c)) c = some (withAvail env r c) := by
  cases h : availEntry env env.group_cnames c <;>
    simp [availOver, withAvail, h, overlayAvail]

/-- One full run of the available loop (a fold of `innerStep` over the
group keys `gcs`): it succeeds when every found entry's filename splits,
and its effect on every lookup is `availOver` restricted to `gcs`. -/
theorem innerFold_spec {K : Type} (env : StatusEnv K) (gcs : List String)
    (hnd : gcs.Nodup)
    (hsplit : ∀ g ∈ gcs, ∀ d, env.get_dist g = some d →
      (env.split_eggname (env.split_dist d).2).isSome) :
    ∀ res, ∃ res2, List.foldlM (innerStep env) res gcs = some res2 ∧
      ∀ c, lookupAssoc res2 c =
        match availEntry env gcs c with
        | some e => some (overlayAvail ((lookupAssoc res c).getD { name := c }) e)
        | none => lookupAssoc res c := by
  induction gcs with
  | nil =>
    intro res
    exact ⟨res, rfl, fun c => by simp [availEntry]⟩
  | cons g rest ih =>
    intro res
    have hndr : rest.Nodup := (List.nodup_cons.mp hnd).2
    have hgr : g ∉ rest := (List.nodup_cons.mp hnd).1
    have hsr : ∀ g2 ∈ rest, ∀ d, env.get_dist g2 = some d →
        (env.split_eggname (env.split_dist d).2).isSome :=
      fun g2 hg2 => hsplit g2 (List.mem_cons_of_mem g hg2)
    cases hgd : env.get_dist g with
    | none =>
      have hstep : innerStep env res g = some res := by
        simp [innerStep, hgd]
      obtain ⟨res2, hres2, hchar⟩ := ih hndr hsr res
      refine ⟨res2, ?_, fun c => ?_⟩
      · rw [List.foldlM_cons, hstep]
        simpa using hres2
      · rw [hchar c]
        by_cases hc : c = g
        · subst hc
          have h1 : availEntry env (c :: rest) c = none := by
            simp [availEntry, hgd]
          have h2 : availEntry env rest c = none := by
            simp [availEntry, hgr]
          rw [h1, h2]
        · have h3 : availEntry env (g :: rest) c = availEntry env rest c := by
            simp [availEntry, List.mem_cons, hc]
          rw [h3]
    | some dist =>
      have hs := hsplit g (List.mem_cons_self g rest) dist hgd
      rw [Option.isSome_iff_exists] at hs
      obtain ⟨⟨n, v, b⟩, hsome⟩ := hs
      have hstep : innerStep env res g = some (setAssoc res g
          (overlayAvail ((lookupAssoc res g).getD { name := g })
            ((env.split_dist dist).2, v, b))) := by
        simp [innerStep, hgd, hsome, overlayAvail]
      obtain ⟨res2, hres2, hchar⟩ := ih hndr hsr (setAssoc res g
        (overlayAvail ((lookupAssoc res g).getD { name := g })
          ((env.split_dist dist).2, v, b)))
      refine ⟨res2, ?_, fun c => ?_⟩
      · rw [List.foldlM_cons, hstep]
        simpa using hres2
      · rw [hchar c]
        by_cases hc : c = g
        · subst hc
          have h2 : availEntry env rest c = none := by
            simp [availEntry, hgr]
          have h1 : availEntry env (c :: rest) c =
              some ((env.split_dist dist).2, v, b) := by
            simp [availEntry, hgd, hsome]
          rw [h2, h1, lookupAssoc_setAssoc]
          simp
        · have h3 : availEntry env (g :: rest) c = availEntry env rest c := by
            simp [availEntry, List.mem_cons, hc]
          have h4 : lookupAssoc (setAssoc res g
              (overlayAvail ((lookupAssoc res g).getD { name := g })
                ((env.split_dist dist).2, v, b))) c = lookupAssoc res c := by
            rw [lookupAssoc_setAssoc]
            have hgc : ¬ g = c := fun h => hc h.symm
            simp [hgc]
          rw [h3, h4]

theorem availOver_some {K : Type} (env : StatusEnv K) (r : StatusRec)
    (c : String) :
    availOver env (some r) c = some (withAvail env r c) := by
  cases h : availEntry env env.group_cnames c <;>
    simp [availOver, withAvail, h]

/-- The installed loop (a fold of `outerStep`): given that every installed
cname has info and every available entry's filename splits, the fold
succeeds; an installed cname's record is its info with the available data
overlaid, and - provided at least one installed cname exists, so the
nested available loop ran - every other lookup is `availOver` of its
previous value. -/
theorem outerFold_spec {K : Type} (env : StatusEnv K) (ics : List String)
    (hnd : ics.Nodup)
    (hinfo : ∀ c ∈ ics, (env.installed_info c).isSome)
    (hgnd : env.group_cnames.Nodup)
    (hsplit : ∀ g ∈ env.group_cnames, ∀ d, env.get_dist g = some d →
      (env.split_eggname (env.split_dist d).2).isSome) :
    ∀ res, ∃ res2, List.foldlM (outerStep env) res ics = some res2 ∧
      (ics = [] → res2 = res) ∧
      (∀ c i, c ∈ ics → env.installed_info c = some i →
        lookupAssoc res2 c = some (withAvail env (instRecOf i) c)) ∧
      (∀ c, c ∉ ics → ics ≠ [] →
        lookupAssoc res2 c = availOver env (lookupAssoc res c) c) := by
  induction ics with
  | nil =>
    intro res
    refine ⟨res, rfl, fun _ => rfl, ?_, ?_⟩
    · intro c i hc
      exact absurd hc (List.not_mem_nil c)
    · intro c _ h
      exact absurd rfl h
  | cons a rest ih =>
    intro res
    have hndr : rest.Nodup := (List.nodup_cons.mp hnd).2
    have har : a ∉ rest := (List.nodup_cons.mp hnd).1
    have hir : ∀ c ∈ rest, (env.installed_info c).isSome :=
      fun c hc => hinfo c (List.mem_cons_of_mem a hc)
    have hia := hinfo a (List.mem_cons_self a rest)
    rw [Option.isSome_iff_exists] at hia
    obtain ⟨infoA, hInfoA⟩ := hia
    obtain ⟨resA, hresA, hcharA⟩ :=
      innerFold_spec env env.group_cnames hgnd hsplit
        (setAssoc res a (instRecOf infoA))
    have hstep : outerStep env res a = some resA := by
      simp only [outerStep, hInfoA]
      exact hresA
    have hlA : ∀ c, lookupAssoc resA c =
        availOver env (lookupAssoc (setAssoc res a (instRecOf infoA)) c) c :=
      fun c => by rw [hcharA c]; rfl
    obtain ⟨res2, hres2, hnil2, hin2, hout2⟩ := ih hndr hir resA
    have hlookA : lookupAssoc resA a =
        some (withAvail env (instRecOf infoA) a) := by
      rw [hlA a, lookupAssoc_setAssoc]
      simp [availOver_some]
    refine ⟨res2, ?_, ?_, ?_, ?_⟩
    · rw [List.foldlM_cons, hstep]
      simpa using hres2
    · intro h
      exact absurd h (List.cons_ne_nil a rest)
    · intro c i hc hic
      rcases List.mem_cons.mp hc with rfl | hcr
      · have hieq : i = infoA := by
          rw [hInfoA] at hic
          exact (Option.some_injective _ hic).symm
        subst hieq
        by_cases hre : rest = []
        · rw [hnil2 hre]
          exact hlookA
        · rw [hout2 c har hre, hlookA, availOver_withAvail]
      · exact hin2 c i hcr hic
    · intro c hc _
      have hca : c ≠ a := fun h => hc (h ▸ List.mem_cons_self a rest)
      have hcr : c ∉ rest := fun h => hc (List.mem_cons_of_mem a h)
      have hset : lookupAssoc (setAssoc res a (instRecOf infoA)) c =
          lookupAssoc res c := by
        rw [lookupAssoc_setAssoc]
        have hac : ¬ a = c := fun h => hca h.symm
        simp [hac]
      by_cases hre : rest = []
      · rw [hnil2 hre, hlA c, hset]
      · rw [hout2 c hcr hre, hlA c, hset, availOver_idem]

theorem availEntry_of_none {K : Type} (env : StatusEnv K) (c : String)
    (h : availDistOf env c = none) :
    availEntry env env.group_cnames c = none := by
  by_cases hc : c ∈ env.group_cnames
  · have hg : env.get_dist c = none := by simpa [availDistOf, hc] using h
    simp [availEntry, hc, hg]
  · simp [availEntry, hc]

theorem availDistOf_mem {K : Type} (env : StatusEnv K) (c d : String)
    (h : availDistOf env c = some d) :
    c ∈ env.group_cnames ∧ env.get_dist c = some d := by
  by_cases hc : c ∈ env.group_cnames
  · exact ⟨hc, by simpa [availDistOf, hc] using h⟩
  · simp [availDistOf, hc] at h

theorem availEntry_of_some {K : Type} (env : StatusEnv K) (c d : String)
    (n v : String) (b : Nat)
    (h : availDistOf env c = some d)
    (hs : env.split_eggname (env.split_dist d).2 = some (n, v, b)) :
    availEntry env env.group_cnames c = some ((env.split_dist d).2, v, b) := by
  obtain ⟨hc, hg⟩ := availDistOf_mem env c d h
  simp [availEntry, hc, hg, hs]

theorem instInfoOf_mem {K : Type} (env : StatusEnv K) (c : String)
    (i : InstalledInfo) (h : instInfoOf env c = some i) :
    c ∈ env.installed_cnames ∧ env.installed_info c = some i := by
  by_cases hc : c ∈ env.installed_cnames
  · exact ⟨hc, by simpa [instInfoOf, hc] using h⟩
  · simp [instInfoOf, hc] at h

/-- The full characterization of `get_status`, provided at least one cname
is installed (so the nested available loop runs), every installed cname has
info, and every available entry's filename splits: the record at `c` is
determined by `(instInfoOf c, availEntry c)`, classified. -/
theorem getStatus_char {K : Type} [LinearOrder K] (env : StatusEnv K)
    (h0 : env.installed_cnames ≠ [])
    (hnd : env.installed_cnames.Nodup)
    (hgnd : env.group_cnames.Nodup)
    (hinfo : ∀ c ∈ env.installed_cnames, (env.installed_info c).isSome)
    (hsplit : ∀ g ∈ env.group_cnames, ∀ d, env.get_dist g = some d →
      (env.split_eggname (env.split_dist d).2).isSome) :
    ∃ res, getStatus env = some res ∧
      ∀ c, lookupAssoc res c =
        (match instInfoOf env c, availEntry env env.group_cnames c with
         | none, none => none
         | none, some e => some (overlayAvail { name := c } e)
         | some i, none => some (instRecOf i)
         | some i, some e => some (overlayAvail (instRecOf i) e)).map
          (classify env) := by
  obtain ⟨resRaw, hraw, _, hin, hout⟩ :=
    outerFold_spec env env.installed_cnames hnd hinfo hgnd hsplit []
  refine ⟨resRaw.map (fun p => (p.1, classify env p.2)), ?_, ?_⟩
  · rw [getStatus, getStatusRaw, hraw]
    rfl
  · intro c
    rw [lookupAssoc_map_classify]
    by_cases hc : c ∈ env.installed_cnames
    · have hi := hinfo c hc
      rw [Option.isSome_iff_exists] at hi
      obtain ⟨i, hi2⟩ := hi
      have hii : instInfoOf env c = some i := by simp [instInfoOf, hc, hi2]
      rw [hin c i hc hi2, hii]
      cases hae : availEntry env env.group_cnames c <;>
        simp [withAvail, hae]
    · have hii : instInfoOf env c = none := by simp [instInfoOf, hc]
      rw [hout c hc h0, hii]
      cases hae : availEntry env env.group_cnames c <;>
        simp [availOver, hae, lookupAssoc]

theorem classify_avail_only {K : Type} [LinearOrder K] (env : StatusEnv K)
    (c : String) (e : String × String × Nat) (he : e.1 ≠ "") :
    (classify env (overlayAvail { name := c } e)).status = "installable" := by
  simp [classify, overlayAvail, he]

theorem classify_inst_only {K : Type} [LinearOrder K] (env : StatusEnv K)
    (i : InstalledInfo) (hi : i.egg_name ≠ "") :
    (classify env (instRecOf i)).status = "installed" := by
  simp [classify, instRecOf, hi]

theorem classify_both {K : Type} [LinearOrder K] (env : StatusEnv K)
    (i : InstalledInfo) (fn v2 : String) (b2 : Nat)
    (hi : i.egg_name ≠ "") (he : fn ≠ "") :
    (classify env (overlayAvail (instRecOf i) (fn, v2, b2))).status =
      if pyGe (vbEgg env i.egg_name) (vbEgg env fn) then "up-to-date"
      else "updateable" := by
  by_cases h : pyGe (vbEgg env i.egg_name) (vbEgg env fn) = true <;>
    simp [classify, overlayAvail, instRecOf, hi, he, h]

/-- C2 counterexample: with nothing installed (`installed_cnames = []`)
the available loop - nested inside the installed loop at resource.py
lines 212-223 - never runs, so an available-only canonical name gets no
record at all, although the claim requires status `installable` for the
pair (no installed dist, some available dist). -/
def envC2 : StatusEnv Nat :=
  { installed_cnames := []
    installed_info := fun _ => none
    group_cnames := ["foo"]
    get_dist := fun c => if c = "foo" then some "r/foo-1.0-1.egg" else none
    split_dist := fun _ => ("r/", "foo-1.0-1.egg")
    split_eggname := splitW
    comparable_version := fun v => if v = "1.0" then some 1 else none }

/-- C2 counterexample: the status map is empty although `foo` is known as
available and not installed. -/
theorem c2_empty_installed_counterexample :
    getStatus envC2 = some [] ∧
      availDistOf envC2 "foo" = some "r/foo-1.0-1.egg" ∧
      instInfoOf envC2 "foo" = none := by
  refine ⟨rfl, by decide, by decide⟩

/-- C2 (amended): provided at least one canonical name is installed (its
info present with a nonempty egg filename) and every available entry's
filename parses to a nonempty name, the emitted status is the total
function of the (installed info, best available dist) pair: neither gives
no record, available-only gives `installable`, installed-only gives
`installed`, and both gives `up-to-date` or `updateable` by the Python
`(version, build)` comparison of the two keys. -/
theorem getStatus_classification_spec {K : Type} [LinearOrder K]
    (env : StatusEnv K)
    (h0 : env.installed_cnames ≠ [])
    (hnd : env.installed_cnames.Nodup)
    (hgnd : env.group_cnames.Nodup)
    (hinfo : ∀ c ∈ env.installed_cnames, ∃ i,
      env.installed_info c = some i ∧ i.egg_name ≠ "")
    (hsplit : ∀ g ∈ env.group_cnames, ∀ d, env.get_dist g = some d →
      (env.split_eggname (env.split_dist d).2).isSome ∧
        (env.split_dist d).2 ≠ "") :
    ∃ res, getStatus env = some res ∧
      ∀ c,
        (instInfoOf env c = none → availDistOf env c = none →
          lookupAssoc res c = none) ∧
        (∀ d, instInfoOf env c = none → availDistOf env c = some d →
          statusIn res c = some "installable") ∧
        (∀ i, instInfoOf env c = some i → availDistOf env c = none →
          statusIn res c = some "installed") ∧
        (∀ i d kI kA, instInfoOf env c = some i → availDistOf env c = some d →
          vbEgg env i.egg_name = some kI →
          vbEgg env (env.split_dist d).2 = some kA →
          statusIn res c = some
            (if pyTupleGe kI kA then "up-to-date" else "updateable")) := by
  have hinfo2 : ∀ c ∈ env.installed_cnames, (env.installed_info c).isSome := by
    intro c hc
    obtain ⟨i, hi, _⟩ := hinfo c hc
    simp [hi]
  have hsplit2 : ∀ g ∈ env.group_cnames, ∀ d, env.get_dist g = some d →
      (env.split_eggname (env.split_dist d).2).isSome :=
    fun g hg d hd => (hsplit g hg d hd).1
  obtain ⟨res, hres, hchar⟩ := getStatus_char env h0 hnd hgnd hinfo2 hsplit2
  refine ⟨res, hres, fun c => ⟨?_, ?_, ?_, ?_⟩⟩
  · intro h1 h2
    rw [hchar c, h1, availEntry_of_none env c h2]
    rfl
  · intro d h1 h2
    obtain ⟨hcg, hgd⟩ := availDistOf_mem env c d h2
    obtain ⟨hsome, hne⟩ := hsplit c hcg d hgd
    rw [Option.isSome_iff_exists] at hsome
    obtain ⟨⟨n, v, b⟩, hnvb⟩ := hsome
    have hae := availEntry_of_some env c d n v b h2 hnvb
    simp only [statusIn]
    rw [hchar c, h1, hae]
    simp [classify_avail_only env c ((env.split_dist d).2, v, b) hne]
  · intro i h1 h2
    have hae := availEntry_of_none env c h2
    obtain ⟨hcI, hiI⟩ := instInfoOf_mem env c i h1
    obtain ⟨i2, hi2, hne⟩ := hinfo c hcI
    have hieq : i = i2 := by
      rw [hiI] at hi2
      exact Option.some_injective _ hi2
    subst hieq
    simp only [statusIn]
    rw [hchar c, h1, hae]
    simp [classify_inst_only env i hne]
  · intro i d kI kA h1 h2 hkI hkA
    obtain ⟨hcg, hgd⟩ := availDistOf_mem env c d h2
    obtain ⟨hsome, hfne⟩ := hsplit c hcg d hgd
    rw [Option.isSome_iff_exists] at hsome
    obtain ⟨⟨n, v, b⟩, hnvb⟩ := hsome
    have hae := availEntry_of_some env c d n v b h2 hnvb
    obtain ⟨hcI, hiI⟩ := instInfoOf_mem env c i h1
    obtain ⟨i2, hi2, hne⟩ := hinfo c hcI
    have hieq : i = i2 := by
      rw [hiI] at hi2
      exact Option.some_injective _ hi2
    subst hieq
    simp only [statusIn]
    rw [hchar c, h1, hae]
    show some ((classify env (overlayAvail (instRecOf i)
        ((env.split_dist d).2, v, b))).status) =
      some (if pyTupleGe kI kA = true then "up-to-date" else "updateable")
    rw [classify_both env i (env.split_dist d).2 v b hne hfne, hkI, hkA]
    rfl

/-- A concrete environment with one installed name and one available name
(disjoint), exercising the amended C2 classification. -/
def envW2 : StatusEnv Nat :=
  { installed_cnames := ["foo"]
    installed_info := fun c =>
      if c = "foo" then some ⟨"foo", "foo-1.0-1.egg"⟩ else none
    group_cnames := ["bar"]
    get_dist := fun c => if c = "bar" then some "r/bar-2.0-1.egg" else none
    split_dist := fun _ => ("r/", "bar-2.0-1.egg")
    split_eggname := fun s =>
      if s = "bar-2.0-1.egg" then some ("bar", "2.0", 1)
      else if s = "foo-1.0-1.egg" then some ("foo", "1.0", 1) else none
    comparable_version := fun v =>
      if v = "1.0" then some 10 else if v = "2.0" then some 20 else none }

/-- C2 witness: the amended classification at a concrete environment. -/
theorem getStatus_classification_spec_witness :
    ∃ res, getStatus envW2 = some res ∧
      ∀ c,
        (instInfoOf envW2 c = none → availDistOf envW2 c = none →
          lookupAssoc res c = none) ∧
        (∀ d, instInfoOf envW2 c = none → availDistOf envW2 c = some d →
          statusIn res c = some "installable") ∧
        (∀ i, instInfoOf envW2 c = some i → availDistOf envW2 c = none →
          statusIn res c = some "installed") ∧
        (∀ i d kI kA, instInfoOf envW2 c = some i →
          availDistOf envW2 c = some d →
          vbEgg envW2 i.egg_name = some kI →
          vbEgg envW2 (envW2.split_dist d).2 = some kA →
          statusIn res c = some
            (if pyTupleGe kI kA then "up-to-date" else "updateable")) :=
  getStatus_classification_spec envW2 (by decide) (by decide) (by decide)
    (by
      intro c hc
      simp only [envW2, List.mem_cons, List.not_mem_nil, or_false] at hc
      subst hc
      exact ⟨⟨"foo", "foo-1.0-1.egg"⟩, rfl, by decide⟩)
    (by
      intro g hg d hd
      simp only [envW2, List.mem_cons, List.not_mem_nil, or_false] at hg
      subst hg
      simp only [envW2, if_pos rfl] at hd
      injection hd with hd2
      subst hd2
      exact ⟨by decide, by decide⟩)

/-- C7 (amended): an installed entry whose filename fails version parsing
gets key `None`, which is not excluded from the `>=` comparison at line 237
but sorts below every parsed key, so with a parseable available entry
present the status is `updateable` (and `up-to-date` when the available
entry is unparsable too, since `None >= None`); it is `installed` only when
no available entry exists.  No error is raised. -/
theorem getStatus_unparsable_spec {K : Type} [LinearOrder K]
    (env : StatusEnv K)
    (h0 : env.installed_cnames ≠ [])
    (hnd : env.installed_cnames.Nodup)
    (hgnd : env.group_cnames.Nodup)
    (hinfo : ∀ c ∈ env.installed_cnames, ∃ i,
      env.installed_info c = some i ∧ i.egg_name ≠ "")
    (hsplit : ∀ g ∈ env.group_cnames, ∀ d, env.get_dist g = some d →
      (env.split_eggname (env.split_dist d).2).isSome ∧
        (env.split_dist d).2 ≠ "")
    (c : String) (i : InstalledInfo)
    (h1 : instInfoOf env c = some i)
    (hvb : vbEgg env i.egg_name = none) :
    ∃ res, getStatus env = some res ∧
      (availDistOf env c = none → statusIn res c = some "installed") ∧
      (∀ d kA, availDistOf env c = some d →
        vbEgg env (env.split_dist d).2 = some kA →
        statusIn res c = some "updateable") ∧
      (∀ d, availDistOf env c = some d →
        vbEgg env (env.split_dist d).2 = none →
        statusIn res c = some "up-to-date") := by
  have hinfo2 : ∀ c2 ∈ env.installed_cnames, (env.installed_info c2).isSome := by
    intro c2 hc2
    obtain ⟨i2, hi2, _⟩ := hinfo c2 hc2
    simp [hi2]
  have hsplit2 : ∀ g ∈ env.group_cnames, ∀ d, env.get_dist g = some d →
      (env.split_eggname (env.split_dist d).2).isSome :=
    fun g hg d hd => (hsplit g hg d hd).1
  obtain ⟨res, hres, hchar⟩ := getStatus_char env h0 hnd hgnd hinfo2 hsplit2
  obtain ⟨hcI, hiI⟩ := instInfoOf_mem env c i h1
  obtain ⟨i2, hi2, hne⟩ := hinfo c hcI
  have hieq : i = i2 := by
    rw [hiI] at hi2
    exact Option.some_injective _ hi2
  subst hieq
  refine ⟨res, hres, ?_, ?_, ?_⟩
  · intro h2
    have hae := availEntry_of_none env c h2
    simp only [statusIn]
    rw [hchar c, h1, hae]
    simp [classify_inst_only env i hne]
  · intro d kA h2 hkA
    obtain ⟨hcg, hgd⟩ := availDistOf_mem env c d h2
    obtain ⟨hsome, hfne⟩ := hsplit c hcg d hgd
    rw [Option.isSome_iff_exists] at hsome
    obtain ⟨⟨n, v, b⟩, hnvb⟩ := hsome
    have hae := availEntry_of_some env c d n v b h2 hnvb
    simp only [statusIn]
    rw [hchar c, h1, hae]
    show some ((classify env (overlayAvail (instRecOf i)
        ((env.split_dist d).2, v, b))).status) = some "updateable"
    rw [classify_both env i (env.split_dist d).2 v b hne hfne, hvb, hkA]
    rfl
  · intro d h2 hkA
    obtain ⟨hcg, hgd⟩ := availDistOf_mem env c d h2
    obtain ⟨hsome, hfne⟩ := hsplit c hcg d hgd
    rw [Option.isSome_iff_exists] at hsome
    obtain ⟨⟨n, v, b⟩, hnvb⟩ := hsome
    have hae := availEntry_of_some env c d n v b h2 hnvb
    simp only [statusIn]
    rw [hchar c, h1, hae]
    show some ((classify env (overlayAvail (instRecOf i)
        ((env.split_dist d).2, v, b))).status) = some "up-to-date"
    rw [classify_both env i (env.split_dist d).2 v b hne hfne, hvb, hkA]
    rfl

/-- A concrete environment whose installed filename for `foo` does not
parse while an available `foo-1.0-1.egg` does. -/
def envC7 : StatusEnv Nat :=
  { installed_cnames := ["foo"]
    installed_info := fun c =>
      if c = "foo" then some ⟨"foo", "foo-bad.egg"⟩ else none
    group_cnames := ["foo"]
    get_dist := fun c => if c = "foo" then some "r/foo-1.0-1.egg" else none
    split_dist := fun _ => ("r/", "foo-1.0-1.egg")
    split_eggname := splitW
    comparable_version := fun v => if v = "1.0" then some 1 else none }

/-- C7 counterexample: the installed `foo-bad.egg` does not parse
(`vb_egg` yields `None`), an available parsed entry exists, and the code
classifies `foo` as `updateable` - not `installed` as the claim states
(Python 2 `None >= tuple` is false, so the `else` branch at line 240
runs). -/
theorem c7_unparsable_counterexample :
    (getStatus envC7).map (fun res => statusIn res "foo") =
        some (some "updateable") ∧
      vbEgg envC7 "foo-bad.egg" = none ∧
      ("updateable" : String) ≠ "installed" := by
  refine ⟨by decide, by decide, by decide⟩

/-- C7 witness: the amended behaviour at the concrete environment. -/
theorem getStatus_unparsable_spec_witness :
    ∃ res, getStatus envC7 = some res ∧
      (availDistOf envC7 "foo" = none → statusIn res "foo" = some "installed") ∧
      (∀ d kA, availDistOf envC7 "foo" = some d →
        vbEgg envC7 (envC7.split_dist d).2 = some kA →
        statusIn res "foo" = some "updateable") ∧
      (∀ d, availDistOf envC7 "foo" = some d →
        vbEgg envC7 (envC7.split_dist d).2 = none →
        statusIn res "foo" = some "up-to-date") :=
  getStatus_unparsable_spec envC7 (by decide) (by decide) (by decide)
    (by
      intro c hc
      simp only [envC7, List.mem_cons, List.not_mem_nil, or_false] at hc
      subst hc
      exact ⟨⟨"foo", "foo-bad.egg"⟩, rfl, by decide⟩)
    (by
      intro g hg d hd
      simp only [envC7, List.mem_cons, List.not_mem_nil, or_false] at hg
      subst hg
      simp only [envC7, if_pos rfl] at hd
      injection hd with hd2
      subst hd2
      exact ⟨by decide, by decide⟩)
    "foo" ⟨"foo", "foo-bad.egg"⟩ (by decide) (by decide)

/-- C3 witness: the membership characterization of the removal phase at a
concrete input. -/
theorem removalPhase_mem_spec_witness :
    "foo-1.0-1.egg" ∈ removalPhase (fun s => s) cname0 ["foo-2.0-1.egg"]
        [] ["foo-1.0-1.egg"] ↔
      "foo-1.0-1.egg" ∈ ["foo-1.0-1.egg"] ∧
        ∃ d ∈ ["foo-2.0-1.egg"], (fun s => s) d ∉ ([] : List String) ∧
          cname0 "foo-1.0-1.egg" = cname0 ((fun s => s) d) :=
  removalPhase_mem_spec (fun s => s) cname0 ["foo-2.0-1.egg"] []
    ["foo-1.0-1.egg"] "foo-1.0-1.egg"

/-- C10 witness: `load_index` on a failed root fetch at concrete
arguments. -/
theorem load_index_root_http_error_spec_witness :
    load_index "plat" (fun s => s) (fun _ => none) parseW (.error ())
        ⟨⟨[], [], []⟩, []⟩ = (⟨⟨[], [], []⟩, []⟩, none) ∧
      load_index "plat" (fun s => s) (fun _ => none) parseW (.ok [])
        ⟨⟨[], [], []⟩, []⟩ = (⟨⟨[], [], []⟩, []⟩, none) :=
  load_index_root_http_error_spec "plat" (fun s => s) (fun _ => none) parseW
    ⟨⟨[], [], []⟩, []⟩
